import Mathlib

/-!
Shallow embedding of the core consensus subsystem of the versatus repository:
block validation and mining (src/block/src/block.rs), miner election
(src/crates/node/src/components/election_module.rs), the sync job executor
(src/crates/node/src/services/scheduler.rs) and the mempool
(src/mempool/src/mempool.rs), together with theorems settling the spec claims.

Modelling conventions: Rust `u64`/`u128`/`usize` values are modelled as `Nat`
(no computation here approaches the wrap-around bound), `Result`/`Option` as
`Except`/`Option`, `HashMap` as either a finitely-supported function or an
association list in iteration order (stated at each use site), `BTreeMap` as an
association list with strictly ascending keys, and `LinkedHashMap` as an
association list in insertion order.  Functions provided by crates that are not
part of this repository's sources (hashing, signatures, claim methods, header
construction, the transaction validator) are taken as explicit parameters.
-/

set_option maxHeartbeats 1000000
set_option linter.unreachableTactic false
set_option linter.unusedTactic false

namespace Versatus

/-- A transaction record as stored in the mempool
(src/mempool/src/mempool.rs, `TxnRecord`). -/
structure TxnRecord where
  txn_id : String
  txn : String
  txn_timestamp : Nat
  txn_added_timestamp : Nat
  txn_validated_timestamp : Nat
  txn_deleted_timestamp : Nat
deriving DecidableEq, Repr

/-- The mempool store `HashMap<String, TxnRecord>` modelled as a function from
keys to optional records (src/mempool/src/mempool.rs, `MempoolType`). -/
def MempoolType := String → Option TxnRecord

/-- `HashMap::insert`: maps the key to the new value, all other keys unchanged
(an existing binding for the key is overwritten). -/
def storeInsert (k : String) (v : TxnRecord) (m : MempoolType) : MempoolType :=
  fun k2 => if k2 = k then some v else m k2

/-- `HashMap::remove`: unmaps the key, all other keys unchanged (removing an
absent key changes nothing). -/
def storeRemove (k : String) (m : MempoolType) : MempoolType :=
  fun k2 => if k2 = k then none else m k2

/-- The `Mempool` struct (src/mempool/src/mempool.rs). -/
structure Mempool where
  store : MempoolType

theorem Mempool.ext_store {a b : Mempool} (h : a.store = b.store) : a = b := by
  cases a; cases b; cases h; rfl

/-- The write-log operations applied to the mempool
(src/mempool/src/mempool.rs, `MempoolOp`). -/
inductive MempoolOp where
  | Add : TxnRecord → MempoolOp
  | Remove : TxnRecord → MempoolOp

/-- The `Absorb<MempoolOp> for Mempool` implementation
(src/mempool/src/mempool.rs, lines 79-112): `absorb_first` and `absorb_second`
apply an operation identically, so a single function models both.  `Add`
inserts the record under its `txn_id`; `Remove` removes the record's `txn_id`. -/
def Mempool.absorb (m : Mempool) (op : MempoolOp) : Mempool :=
  match op with
  | .Add recdata => { store := storeInsert recdata.txn_id recdata m.store }
  | .Remove recdata => { store := storeRemove recdata.txn_id m.store }

/-- C9: mempool operations are idempotent on the store: applying `Add` for a
record twice yields the state of applying it once, applying `Remove` twice
yields the state of applying it once; inserting an existing `txn_id`
overwrites it (a no-op when the stored record is the same), and removing an
absent `txn_id` leaves the store unchanged. -/
theorem mempool_ops_idempotent (m : Mempool) (r : TxnRecord) :
    (m.absorb (.Add r)).absorb (.Add r) = m.absorb (.Add r) ∧
    (m.absorb (.Remove r)).absorb (.Remove r) = m.absorb (.Remove r) ∧
    (m.absorb (.Add r)).store r.txn_id = some r ∧
    (m.store r.txn_id = none → m.absorb (.Remove r) = m) := by
  refine ⟨?_, ?_, ?_, ?_⟩
  · apply Mempool.ext_store
    funext k2
    simp only [Mempool.absorb, storeInsert]
    by_cases h : k2 = r.txn_id <;> simp [h]
  · apply Mempool.ext_store
    funext k2
    simp only [Mempool.absorb, storeRemove]
    by_cases h : k2 = r.txn_id <;> simp [h]
  · simp [Mempool.absorb, storeInsert]
  · intro habs
    apply Mempool.ext_store
    funext k2
    simp only [Mempool.absorb, storeRemove]
    by_cases h : k2 = r.txn_id
    · subst h; simp [habs]
    · simp [h]

/-- Witness for `mempool_ops_idempotent` at a concrete record and the empty
store: removing the absent record leaves the store unchanged. -/
theorem mempool_ops_idempotent_witness :
    (Mempool.mk (fun _ => none)).store "t1" = none ∧
    (Mempool.mk (fun _ => none)).absorb
        (.Remove (TxnRecord.mk "t1" "" 0 0 0 0)) = Mempool.mk (fun _ => none) :=
  ⟨rfl, (mempool_ops_idempotent (Mempool.mk (fun _ => none))
    (TxnRecord.mk "t1" "" 0 0 0 0)).2.2.2 rfl⟩

/-- Claim eligibility roles (vrrb_core::claim::Eligibility; the spec lists
Miner, Harvester, Farmer, and possibly more — only Miner vs. non-Miner matters
to the embedded code). -/
inductive Eligibility where
  | Miner
  | Harvester
  | Farmer
  | NoRole
deriving DecidableEq, Repr

/-- The data fields of a staking claim used by the embedded code; the claim
crate's methods (`get_pointer`, `get_election_result`, `valid`) are not in this
repository's sources and are passed to the embedded functions as parameters. -/
structure Claim where
  pubkey : String
  hash : String
  eligibility : Eligibility
deriving DecidableEq, Repr

/-- A block reward with its category and amount (`Reward::get_amount` returns
the amount); categories are modelled as numbers. -/
structure Reward where
  category : Nat
  amount : Nat
deriving DecidableEq, Repr

/-- A transaction: its stable id and the validator vote map
`validators: address → bool`, modelled as an association list. -/
structure Txn where
  txn_id : String
  validators : List (String × Bool)
deriving DecidableEq, Repr

/-- The block header fields read by the embedded code (src/block/src/header.rs
is not among the sources; the fields are those referenced from block.rs and
the election module). -/
structure BlockHeader where
  block_height : Nat
  block_nonce : Nat
  next_block_nonce : Nat
  last_hash : String
  block_seed : Nat
  next_block_seed : Nat
  block_reward : Reward
  next_block_reward : Reward
  claim : Claim
  txn_hash : String
  timestamp : Nat
  signature : String
deriving DecidableEq, Repr

/-- The `Block` struct (src/block/src/block.rs): `LinkedHashMap` fields are
association lists in insertion order. -/
structure Block where
  header : BlockHeader
  neighbors : Option (List BlockHeader)
  height : Nat
  txns : List (String × Txn)
  claims : List (String × Claim)
  hash : String
  received_at : Option Nat
  received_from : Option String
  abandoned_claim : Option Claim
deriving DecidableEq, Repr

/-- The part of the network state (state crate, not among the sources) that
`Block::valid` and `Block::mine` consult: `get_lowest_pointer` and the state
`hash` fold over the txns and the block reward. -/
structure NetworkState where
  get_lowest_pointer : Nat → Option (String × Nat)
  state_hash : List (String × Txn) → Reward → String

/-- The part of the reward state (reward crate, not among the sources) that
the validity predicates consult. -/
structure RewardState where
  valid_reward : Nat → Bool

/-- The reasons of `InvalidBlockError` (src/block/src/invalid.rs is not among
the sources; the variants are the ones constructed in block.rs, named as in
the spec's error list).  The Rust error wraps the reason in a one-field
struct, so the embedding returns the reason directly. -/
inductive InvalidBlockErrorReason where
  | BlockOutOfSequence
  | NotTallestChain
  | InvalidBlockNonce
  | InvalidBlockReward
  | InvalidNextBlockReward
  | InvalidClaimPointers
  | InvalidLastHash
  | InvalidBlockHeight
  | InvalidStateHash
  | InvalidClaim
  | InvalidBlockSignature
  | InvalidTxns
deriving DecidableEq, Repr

/-- The checks of `Block::valid` that follow the claim-pointer block
(src/block/src/block.rs, lines 252-276): reward categories against the reward
state, `last_hash` against the previous block's hash, and the claim's own
validity (`Claim::valid`, external, passed as `claim_valid`). -/
def Block.valid_tail (claim_valid : Claim → Bool) (self item : Block)
    (dependant_two : RewardState) : Except InvalidBlockErrorReason Bool :=
  if ¬ dependant_two.valid_reward self.header.block_reward.category then
    .error .InvalidBlockReward
  else if ¬ dependant_two.valid_reward self.header.next_block_reward.category then
    .error .InvalidNextBlockReward
  else if self.header.last_hash ≠ item.hash then
    .error .InvalidLastHash
  else if ¬ claim_valid self.header.claim then
    .error .InvalidClaim
  else
    .ok true

/-- The checks of `Block::valid` that follow the two height checks
(src/block/src/block.rs, lines 208-276): block nonce, reward category and
amount against the previous header, the claim-pointer block (skipped entirely
when `get_lowest_pointer` yields nothing), then `Block.valid_tail`. -/
def Block.valid_rest (get_pointer : Claim → Nat → Option Nat)
    (claim_valid : Claim → Bool) (self item : Block) (dependant_one : NetworkState)
    (dependant_two : RewardState) : Except InvalidBlockErrorReason Bool :=
  if self.header.block_nonce ≠ item.header.next_block_nonce then
    .error .InvalidBlockNonce
  else if self.header.block_reward.category ≠ item.header.next_block_reward.category then
    .error .InvalidBlockReward
  else if self.header.block_reward.amount ≠ item.header.next_block_reward.amount then
    .error .InvalidBlockReward
  else
    match dependant_one.get_lowest_pointer self.header.block_nonce with
    | some (hash, pointers) =>
      if hash = self.header.claim.hash then
        match get_pointer self.header.claim self.header.block_nonce with
        | some claim_pointer =>
          if pointers ≠ claim_pointer then
            .error .InvalidClaimPointers
          else
            Block.valid_tail claim_valid self item dependant_two
        | none => .error .InvalidClaimPointers
      else
        .error .InvalidClaimPointers
    | none => Block.valid_tail claim_valid self item dependant_two

/-- `Block::valid` (src/block/src/block.rs, lines 190-277).  `item` is the
previous block, `dependant_one` the network state, `dependant_two` the reward
state.  `get_pointer` and `claim_valid` stand for the external claim crate's
`Claim::get_pointer` and `Claim::valid`.  Each failed check returns its error
immediately, in source order: the two height checks first, then
`Block.valid_rest`. -/
def Block.valid (get_pointer : Claim → Nat → Option Nat) (claim_valid : Claim → Bool)
    (self item : Block) (dependant_one : NetworkState) (dependant_two : RewardState) :
    Except InvalidBlockErrorReason Bool :=
  if self.header.block_height > item.header.block_height + 1 then
    .error .BlockOutOfSequence
  else if self.header.block_height < item.header.block_height ∨
      self.header.block_height = item.header.block_height then
    .error .NotTallestChain
  else
    Block.valid_rest get_pointer claim_valid self item dependant_one dependant_two

theorem valid_tail_error_reason (claim_valid : Claim → Bool) (self item : Block)
    (d2 : RewardState) (r : InvalidBlockErrorReason)
    (h : Block.valid_tail claim_valid self item d2 = .error r) :
    r ≠ .BlockOutOfSequence ∧ r ≠ .NotTallestChain ∧ r ≠ .InvalidClaimPointers := by
  unfold Block.valid_tail at h
  split_ifs at h <;> injection h with h2 <;> subst h2 <;> decide

theorem valid_rest_error_reason (get_pointer : Claim → Nat → Option Nat)
    (claim_valid : Claim → Bool) (self item : Block) (d1 : NetworkState)
    (d2 : RewardState) (r : InvalidBlockErrorReason)
    (h : Block.valid_rest get_pointer claim_valid self item d1 d2 = .error r) :
    r ≠ .BlockOutOfSequence ∧ r ≠ .NotTallestChain := by
  unfold Block.valid_rest at h
  split_ifs at h <;>
    first
    | (injection h with h2; subst h2; decide)
    | skip
  split at h
  · split_ifs at h
    · split at h
      · split_ifs at h
        · injection h with h2; subst h2; decide
        · exact ⟨(valid_tail_error_reason claim_valid self item d2 r h).1,
            (valid_tail_error_reason claim_valid self item d2 r h).2.1⟩
      · injection h with h2; subst h2; decide
    · injection h with h2; subst h2; decide
  · exact ⟨(valid_tail_error_reason claim_valid self item d2 r h).1,
      (valid_tail_error_reason claim_valid self item d2 r h).2.1⟩

/-- C1: the height checks of `Block::valid` accept only the band
`height = prev.height + 1`: the result is `BlockOutOfSequence` exactly when
`height > prev.height + 1`, it is `NotTallestChain` exactly when
`height < prev.height` or `height = prev.height`, and (since these two checks
run before every other check) the result is something other than those two
errors exactly when `height = prev.height + 1`, for every choice of the
remaining block data and of the external dependencies. -/
theorem valid_height_band (get_pointer : Claim → Nat → Option Nat)
    (claim_valid : Claim → Bool) (self item : Block) (d1 : NetworkState)
    (d2 : RewardState) :
    (Block.valid get_pointer claim_valid self item d1 d2 = .error .BlockOutOfSequence ↔
      self.header.block_height > item.header.block_height + 1) ∧
    (Block.valid get_pointer claim_valid self item d1 d2 = .error .NotTallestChain ↔
      (self.header.block_height < item.header.block_height ∨
        self.header.block_height = item.header.block_height)) ∧
    ((Block.valid get_pointer claim_valid self item d1 d2 ≠ .error .BlockOutOfSequence ∧
      Block.valid get_pointer claim_valid self item d1 d2 ≠ .error .NotTallestChain) ↔
      self.header.block_height = item.header.block_height + 1) := by
  rcases Nat.lt_trichotomy self.header.block_height (item.header.block_height + 1) with h | h | h
  · have hv : Block.valid get_pointer claim_valid self item d1 d2 =
        Except.error InvalidBlockErrorReason.NotTallestChain := by
      unfold Block.valid
      split_ifs <;> first | rfl | omega
    refine ⟨?_, ?_, ?_⟩ <;> simp [hv] <;> omega
  · have hv : Block.valid get_pointer claim_valid self item d1 d2 =
        Block.valid_rest get_pointer claim_valid self item d1 d2 := by
      unfold Block.valid
      split_ifs <;> first | rfl | omega
    have hne : Block.valid get_pointer claim_valid self item d1 d2 ≠
        Except.error InvalidBlockErrorReason.BlockOutOfSequence ∧
      Block.valid get_pointer claim_valid self item d1 d2 ≠
        Except.error InvalidBlockErrorReason.NotTallestChain := by
      rw [hv]
      constructor <;> intro hc <;>
        rcases valid_rest_error_reason get_pointer claim_valid self item d1 d2 _ hc
          with ⟨h1, h2⟩ <;> simp_all
    refine ⟨?_, ?_, ?_⟩
    · simp [hne.1]; omega
    · simp [hne.2]; omega
    · simp [hne]; omega
  · have hv : Block.valid get_pointer claim_valid self item d1 d2 =
        Except.error InvalidBlockErrorReason.BlockOutOfSequence := by
      unfold Block.valid
      split_ifs <;> first | rfl | omega
    refine ⟨?_, ?_, ?_⟩ <;> simp [hv] <;> omega

/-- Modelled from the claim under scrutiny for comparison with `Block.valid`:
the same validity predicate with the claim-pointer check removed, so that
validation proceeds directly from the reward-amount check to the remaining
checks. -/
def Block.valid_no_pointer_check (claim_valid : Claim → Bool) (self item : Block)
    (dependant_two : RewardState) : Except InvalidBlockErrorReason Bool :=
  if self.header.block_height > item.header.block_height + 1 then
    .error .BlockOutOfSequence
  else if self.header.block_height < item.header.block_height ∨
      self.header.block_height = item.header.block_height then
    .error .NotTallestChain
  else if self.header.block_nonce ≠ item.header.next_block_nonce then
    .error .InvalidBlockNonce
  else if self.header.block_reward.category ≠ item.header.next_block_reward.category then
    .error .InvalidBlockReward
  else if self.header.block_reward.amount ≠ item.header.next_block_reward.amount then
    .error .InvalidBlockReward
  else
    Block.valid_tail claim_valid self item dependant_two

/-- C10: when the network state's `get_lowest_pointer` at the block's nonce
returns no record, `Block::valid` never returns `InvalidClaimPointers`: it
computes exactly the predicate with the claim-pointer check skipped, so
validation proceeds to the remaining checks. -/
theorem valid_skips_pointer_check_on_none (get_pointer : Claim → Nat → Option Nat)
    (claim_valid : Claim → Bool) (self item : Block) (d1 : NetworkState)
    (d2 : RewardState)
    (hnone : d1.get_lowest_pointer self.header.block_nonce = none) :
    Block.valid get_pointer claim_valid self item d1 d2 ≠ .error .InvalidClaimPointers ∧
    Block.valid get_pointer claim_valid self item d1 d2 =
      Block.valid_no_pointer_check claim_valid self item d2 := by
  have heq : Block.valid get_pointer claim_valid self item d1 d2 =
      Block.valid_no_pointer_check claim_valid self item d2 := by
    unfold Block.valid Block.valid_rest Block.valid_no_pointer_check
    split_ifs <;> try rfl
    rw [hnone]
  refine ⟨?_, heq⟩
  rw [heq]
  intro hc
  unfold Block.valid_no_pointer_check at hc
  split_ifs at hc <;>
    first
    | (injection hc with h2; exact absurd h2.symm (by decide))
    | exact absurd rfl (valid_tail_error_reason claim_valid self item d2 _ hc).2.2

/-- A network state whose lowest-pointer lookup is always empty and whose
state hash is a fixed string, used to instantiate witnesses. -/
def emptyNetworkState : NetworkState :=
  { get_lowest_pointer := fun _ => none
    state_hash := fun _ _ => "state" }

/-- A reward used in concrete blocks. -/
def reward0 : Reward := { category := 0, amount := 10 }

/-- A concrete block header for witnesses. -/
def header0 : BlockHeader :=
  { block_height := 1
    block_nonce := 0
    next_block_nonce := 0
    last_hash := "h0"
    block_seed := 0
    next_block_seed := 0
    block_reward := reward0
    next_block_reward := reward0
    claim := { pubkey := "pk", hash := "ch", eligibility := .Miner }
    txn_hash := ""
    timestamp := 0
    signature := "sig" }

/-- A concrete block of height 1 for witnesses. -/
def block1 : Block :=
  { header := header0
    neighbors := none
    height := 1
    txns := []
    claims := []
    hash := "h1"
    received_at := none
    received_from := none
    abandoned_claim := none }

/-- A concrete block of height 2 whose header links to `block1`. -/
def block2 : Block :=
  { block1 with
      header := { header0 with block_height := 2, last_hash := "h1", timestamp := 2000000000 }
      height := 2
      hash := "h2" }

/-- Witness for `valid_skips_pointer_check_on_none` at concrete blocks over a
network state with no lowest-pointer records: the hypothesis holds by
evaluation and the validation result carries no `InvalidClaimPointers`. -/
theorem valid_skips_pointer_check_on_none_witness :
    emptyNetworkState.get_lowest_pointer block2.header.block_nonce = none ∧
    Block.valid (fun _ _ => none) (fun _ => true) block2 block1 emptyNetworkState
        (RewardState.mk (fun _ => true)) ≠ .error .InvalidClaimPointers ∧
    Block.valid (fun _ _ => none) (fun _ => true) block2 block1 emptyNetworkState
        (RewardState.mk (fun _ => true)) =
      Block.valid_no_pointer_check (fun _ => true) block2 block1
        (RewardState.mk (fun _ => true)) :=
  ⟨rfl,
   (valid_skips_pointer_check_on_none (fun _ _ => none) (fun _ => true) block2 block1
      emptyNetworkState (RewardState.mk (fun _ => true)) rfl).1,
   (valid_skips_pointer_check_on_none (fun _ _ => none) (fun _ => true) block2 block1
      emptyNetworkState (RewardState.mk (fun _ => true)) rfl).2⟩

/-- Time constants (src/block/src/block.rs, lines 18-21): nanoseconds. -/
def SECOND : Nat := 1000000000

/-- `u128::checked_sub`: `a - b` when it does not underflow, `None` otherwise. -/
def checked_sub (a b : Nat) : Option Nat :=
  if b ≤ a then some (a - b) else none

/-- The header built inside `Block::mine` (src/block/src/block.rs, lines
90-118): the txn hash is the digest of the concatenated txn bytes in insertion
order, the neighbors hash the digest of the concatenated neighbor-header bytes
when neighbors are present, and `new_header` stands for the external
`BlockHeader::new` applied to the last block, the reward state, the claim, the
two hashes, the claim-map hash and the signature. -/
def Block.mine_header (digest_bytes : List Nat → String) (txn_bytes : Txn → List Nat)
    (header_bytes : BlockHeader → List Nat)
    (new_header : Block → RewardState → Claim → String → Option String →
      Option String → String → BlockHeader)
    (claim : Claim) (last_block : Block) (txns : List (String × Txn))
    (claim_map_hash : Option String) (reward_state : RewardState)
    (neighbors : Option (List BlockHeader)) (signature : String) : BlockHeader :=
  let txn_hash := digest_bytes ((txns.map (fun p => txn_bytes p.2)).flatten)
  let neighbors_hash :=
    match neighbors with
    | some ns => some (digest_bytes ((ns.map header_bytes).flatten))
    | none => none
  new_header last_block reward_state claim txn_hash claim_map_hash neighbors_hash signature

/-- `Block::mine` (src/block/src/block.rs, lines 78-147): builds the header,
returns `None` when the new header's timestamp minus the last block's
timestamp underflows (`checked_sub`) or is under one second in whole seconds
(`time / SECOND < 1`); otherwise returns the block at height
`last_block.height + 1` whose final hash folds the network state with the txns
and the block reward. -/
def Block.mine (digest_bytes : List Nat → String) (txn_bytes : Txn → List Nat)
    (header_bytes : BlockHeader → List Nat)
    (new_header : Block → RewardState → Claim → String → Option String →
      Option String → String → BlockHeader)
    (claim : Claim) (last_block : Block) (txns : List (String × Txn))
    (claims : List (String × Claim)) (claim_map_hash : Option String)
    (reward_state : RewardState) (network_state : NetworkState)
    (neighbors : Option (List BlockHeader)) (abandoned_claim : Option Claim)
    (signature : String) : Option Block :=
  let header := Block.mine_header digest_bytes txn_bytes header_bytes new_header
    claim last_block txns claim_map_hash reward_state neighbors signature
  match checked_sub header.timestamp last_block.header.timestamp with
  | none => none
  | some time =>
    if time / SECOND < 1 then
      none
    else
      let height := last_block.height + 1
      let block : Block :=
        { header := header
          neighbors := neighbors
          height := height
          txns := txns
          claims := claims
          hash := header.last_hash
          received_at := none
          received_from := none
          abandoned_claim := abandoned_claim }
      some { block with hash := network_state.state_hash block.txns block.header.block_reward }

/-- C2: `Block::mine` returns `None` whenever the new header's timestamp minus
the last block's timestamp is under one second — including the underflow case
where the new timestamp is earlier — and every block it returns as `Some` has
height `last_block.height + 1`. -/
theorem mine_interval_and_height (digest_bytes : List Nat → String)
    (txn_bytes : Txn → List Nat) (header_bytes : BlockHeader → List Nat)
    (new_header : Block → RewardState → Claim → String → Option String →
      Option String → String → BlockHeader)
    (claim : Claim) (last_block : Block) (txns : List (String × Txn))
    (claims : List (String × Claim)) (claim_map_hash : Option String)
    (reward_state : RewardState) (network_state : NetworkState)
    (neighbors : Option (List BlockHeader)) (abandoned_claim : Option Claim)
    (signature : String) :
    ((Block.mine_header digest_bytes txn_bytes header_bytes new_header claim last_block
        txns claim_map_hash reward_state neighbors signature).timestamp <
        last_block.header.timestamp + SECOND →
      Block.mine digest_bytes txn_bytes header_bytes new_header claim last_block txns
        claims claim_map_hash reward_state network_state neighbors abandoned_claim
        signature = none) ∧
    (∀ b, Block.mine digest_bytes txn_bytes header_bytes new_header claim last_block txns
        claims claim_map_hash reward_state network_state neighbors abandoned_claim
        signature = some b → b.height = last_block.height + 1) := by
  constructor
  · intro hlt
    unfold Block.mine
    simp only
    split
    · rfl
    · rename_i time hsub
      unfold checked_sub at hsub
      split_ifs at hsub with hle
      injection hsub with htime
      have h1 : time < SECOND := by omega
      have hdiv : time / SECOND = 0 := Nat.div_eq_of_lt h1
      simp [hdiv]
  · intro b hb
    unfold Block.mine at hb
    simp only at hb
    split at hb
    · cases hb
    · split_ifs at hb
      cases hb
      rfl

/-- A header-constructor stand-in that stamps the new header at time 0,
before the last block. -/
def c2NewHeaderEarly : Block → RewardState → Claim → String → Option String →
    Option String → String → BlockHeader :=
  fun _ _ _ _ _ _ _ => header0

/-- A header-constructor stand-in that stamps the new header exactly one
second after time 0. -/
def c2NewHeaderLate : Block → RewardState → Claim → String → Option String →
    Option String → String → BlockHeader :=
  fun _ _ _ _ _ _ _ => { header0 with timestamp := 1000000000 }

/-- A reward state accepting every category, for witnesses. -/
def allRewardState : RewardState := RewardState.mk (fun _ => true)

/-- Witness for `mine_interval_and_height`: with the new header stamped at the
same instant as the last block, mining returns `None`; stamped one second
later, the mined block has height `last_block.height + 1`. -/
theorem mine_interval_and_height_witness :
    Block.mine (fun _ => "d") (fun _ => []) (fun _ => []) c2NewHeaderEarly
        header0.claim block1 [] [] none allRewardState emptyNetworkState none none
        "s" = none ∧
    (Block.mine (fun _ => "d") (fun _ => []) (fun _ => []) c2NewHeaderLate
        header0.claim block1 [] [] none allRewardState emptyNetworkState none none
        "s").map Block.height = some (block1.height + 1) := by
  constructor
  · exact (mine_interval_and_height (fun _ => "d") (fun _ => []) (fun _ => [])
      c2NewHeaderEarly header0.claim block1 [] [] none allRewardState
      emptyNetworkState none none "s").1 (by decide)
  · cases h : Block.mine (fun _ => "d") (fun _ => []) (fun _ => []) c2NewHeaderLate
        header0.claim block1 [] [] none allRewardState emptyNetworkState none none
        "s" with
    | none => exact absurd h (by decide)
    | some b =>
      simp only [Option.map_some']
      exact congrArg some ((mine_interval_and_height (fun _ => "d") (fun _ => [])
        (fun _ => []) c2NewHeaderLate header0.claim block1 [] [] none allRewardState
        emptyNetworkState none none "s").2 b h)

/-- The genesis txn threshold check on one txn (src/block/src/block.rs, lines
333-338): the fraction of validators voting `true` is below
`VALIDATOR_THRESHOLD = 0.60`.  The source compares
`(n_valid as f64) / (len as f64) < 0.60`; with `0.60 = 3/5` this is the exact
integer comparison `5 * n_valid < 3 * len`, which also agrees with the float
comparison when the validator map is empty (`NaN < 0.60` is false, as is
`5 * 0 < 3 * 0`). -/
def txn_below_threshold (txn : Txn) : Bool :=
  5 * (txn.validators.filter (fun p => p.2)).length < 3 * txn.validators.length

/-- `Block::valid_genesis` (src/block/src/block.rs, lines 279-347).  `digest`
stands for the external `digest_bytes` over UTF-8 strings, `claim_valid` for
`Claim::valid` and `header_verify` for `BlockHeader::verify`.  The source
computes a `valid_data` flag over all txns and fails with `InvalidTxns` at the
end exactly when some txn is below the validator threshold. -/
def Block.valid_genesis (digest : String → String) (claim_valid : Claim → Bool)
    (header_verify : BlockHeader → Bool) (self : Block) (dependant_two : RewardState) :
    Except InvalidBlockErrorReason Bool :=
  let genesis_last_hash := digest "Genesis_Last_Hash"
  let genesis_state_hash := digest (genesis_last_hash ++ "," ++ digest "Genesis_State_Hash")
  if self.header.block_height ≠ 0 then
    .error .InvalidBlockHeight
  else if ¬ dependant_two.valid_reward self.header.block_reward.category then
    .error .InvalidBlockReward
  else if ¬ dependant_two.valid_reward self.header.next_block_reward.category then
    .error .InvalidNextBlockReward
  else if self.header.last_hash ≠ genesis_last_hash then
    .error .InvalidLastHash
  else if self.hash ≠ genesis_state_hash then
    .error .InvalidStateHash
  else if ¬ claim_valid self.header.claim then
    .error .InvalidClaim
  else if ¬ header_verify self.header then
    .error .InvalidBlockSignature
  else if self.txns.any (fun p => txn_below_threshold p.2) then
    .error .InvalidTxns
  else
    .ok true

/-- C6: on a genesis block that passes every earlier genesis check,
`valid_genesis` returns `InvalidTxns` exactly when some txn's fraction of
validators voting `true` is below 0.60 (the exact integer form of the
threshold comparison); otherwise it validates. -/
theorem valid_genesis_txn_threshold (digest : String → String)
    (claim_valid : Claim → Bool) (header_verify : BlockHeader → Bool)
    (self : Block) (d2 : RewardState)
    (hh : self.header.block_height = 0)
    (hr1 : d2.valid_reward self.header.block_reward.category = true)
    (hr2 : d2.valid_reward self.header.next_block_reward.category = true)
    (hlast : self.header.last_hash = digest "Genesis_Last_Hash")
    (hstate : self.hash = digest (digest "Genesis_Last_Hash" ++ "," ++
      digest "Genesis_State_Hash"))
    (hclaim : claim_valid self.header.claim = true)
    (hsig : header_verify self.header = true) :
    (Block.valid_genesis digest claim_valid header_verify self d2 = .error .InvalidTxns ↔
      ∃ p ∈ self.txns,
        5 * (p.2.validators.filter (fun q => q.2)).length < 3 * p.2.validators.length) ∧
    (Block.valid_genesis digest claim_valid header_verify self d2 ≠ .error .InvalidTxns →
      Block.valid_genesis digest claim_valid header_verify self d2 = .ok true) := by
  have hres : Block.valid_genesis digest claim_valid header_verify self d2 =
      if self.txns.any (fun p => txn_below_threshold p.2) then
        .error .InvalidTxns
      else
        .ok true := by
    unfold Block.valid_genesis
    split_ifs <;> simp_all
  rw [hres]
  constructor
  · by_cases hany : self.txns.any (fun p => txn_below_threshold p.2)
    · simp only [hany, if_true, true_iff]
      rcases List.any_eq_true.mp hany with ⟨p, hp, hbelow⟩
      exact ⟨p, hp, by simpa [txn_below_threshold] using hbelow⟩
    · simp only [hany]
      constructor
      · intro hc; cases hc
      · intro ⟨p, hp, hbelow⟩
        exact absurd (List.any_eq_true.mpr
          ⟨p, hp, by simpa [txn_below_threshold] using hbelow⟩) hany
  · intro hne
    by_cases hany : self.txns.any (fun p => txn_below_threshold p.2)
    · simp_all
    · simp [hany]

/-- A genesis txn with one of three validators approving. -/
def txnOneOfThree : Txn :=
  { txn_id := "t1", validators := [("v1", true), ("v2", false), ("v3", false)] }

/-- A genesis txn with two of three validators approving. -/
def txnTwoOfThree : Txn :=
  { txn_id := "t2", validators := [("v1", true), ("v2", true), ("v3", false)] }

/-- A concrete genesis block (under the identity digest stand-in) holding the
given txns. -/
def genesisBlockWith (txns : List (String × Txn)) : Block :=
  { header := { header0 with block_height := 0, last_hash := "Genesis_Last_Hash" }
    neighbors := none
    height := 0
    txns := txns
    claims := [("pk", header0.claim)]
    hash := "Genesis_Last_Hash,Genesis_State_Hash"
    received_at := none
    received_from := none
    abandoned_claim := none }

/-- Witness for `valid_genesis_txn_threshold`: a genesis block containing a
txn with 1 of 3 validators approving is rejected with `InvalidTxns`; with 2 of
3 approving the threshold check passes and validation succeeds. -/
theorem valid_genesis_txn_threshold_witness :
    Block.valid_genesis (fun s => s) (fun _ => true) (fun _ => true)
        (genesisBlockWith [("t1", txnOneOfThree)]) allRewardState =
      .error .InvalidTxns ∧
    Block.valid_genesis (fun s => s) (fun _ => true) (fun _ => true)
        (genesisBlockWith [("t2", txnTwoOfThree)]) allRewardState = .ok true := by
  constructor
  · exact (valid_genesis_txn_threshold (fun s => s) (fun _ => true) (fun _ => true)
      (genesisBlockWith [("t1", txnOneOfThree)]) allRewardState rfl rfl rfl rfl rfl
      rfl rfl).1.mpr ⟨("t1", txnOneOfThree), by decide, by decide⟩
  · refine (valid_genesis_txn_threshold (fun s => s) (fun _ => true) (fun _ => true)
      (genesisBlockWith [("t2", txnTwoOfThree)]) allRewardState rfl rfl rfl rfl rfl
      rfl rfl).2 ?_
    intro hc
    rw [show Block.valid_genesis (fun s => s) (fun _ => true) (fun _ => true)
      (genesisBlockWith [("t2", txnTwoOfThree)]) allRewardState = .ok true from rfl] at hc
    cases hc

/-- `single_miner_results` (src/crates/node/src/components/election_module.rs,
lines 213-215): pairs a claim with its 256-bit election result for the seed.
`Claim::get_election_result` lives in the external vrrb_core crate and is
passed as a parameter; its `U256` result is modelled as `Nat`. -/
def single_miner_results (get_election_result : Claim → Nat → Nat) (claim : Claim)
    (block_seed : Nat) : Nat × Claim :=
  (get_election_result claim block_seed, claim)

/-- `BTreeMap::insert` on the sorted-association-list model of
`BTreeMap<U256, Claim>` (and of `BTreeMap<u16, RawSignature>`): keys strictly
ascending, inserting an existing key replaces its value. -/
def btree_insert {β : Type} (kv : Nat × β) : List (Nat × β) → List (Nat × β)
  | [] => [kv]
  | (k, v) :: rest =>
    if kv.1 < k then kv :: (k, v) :: rest
    else if kv.1 = k then kv :: rest
    else (k, v) :: btree_insert kv rest

/-- The filter-and-map stage of `elect_miner`: the claims with eligibility
`Miner`, each paired with its election result, in the iteration order of the
input `HashMap<NodeId, Claim>` (modelled as an association list in iteration
order). -/
def miner_pairs (get_election_result : Claim → Nat → Nat)
    (claims : List (String × Claim)) (block_seed : Nat) : List (Nat × Claim) :=
  (claims.filter (fun p => p.2.eligibility == Eligibility.Miner)).map
    (fun p => single_miner_results get_election_result p.2 block_seed)

/-- `elect_miner` (src/crates/node/src/components/election_module.rs, lines
205-211): filters the claims by `eligibility == Miner`, maps each to
`(get_election_result(seed), claim)` and collects into a `BTreeMap<U256,
Claim>`; collecting inserts the pairs in iteration order, a later pair
overwriting an earlier one with an equal key. -/
def elect_miner (get_election_result : Claim → Nat → Nat)
    (claims : List (String × Claim)) (block_seed : Nat) : List (Nat × Claim) :=
  (miner_pairs get_election_result claims block_seed).foldl
    (fun m kv => btree_insert kv m) []

/-- `get_winner` (src/crates/node/src/components/election_module.rs, lines
217-228): the body is `loop { if let Some((pointer_sum, claim)) = iter.next()
{ first = ...; break } }` over the `BTreeMap` iterator.  Each loop iteration
polls `iter.next()` once; the model makes the iteration count explicit as
fuel.  On a non-empty map the first poll yields the smallest entry and the
loop breaks; on an empty map every poll yields `None` and the loop never
breaks, so no amount of fuel produces a result. -/
def get_winner_loop (election_results : List (Nat × Claim)) : Nat → Option (Nat × Claim)
  | 0 => none
  | fuel + 1 =>
    match election_results with
    | first :: _ => some first
    | [] => get_winner_loop [] fuel

/-- C3: `get_winner` terminates with the first entry on every non-empty
election-result map, but on an empty election set it returns no result no
matter how many loop iterations run — it waits indefinitely instead of
returning a "no eligible miner" error, contradicting the spec's required
behaviour (the code bug the spec's open question records). -/
theorem get_winner_terminates_iff_nonempty :
    (∀ (kv : Nat × Claim) (rest : List (Nat × Claim)) (fuel : Nat), 0 < fuel →
      get_winner_loop (kv :: rest) fuel = some kv) ∧
    (∀ fuel : Nat, get_winner_loop [] fuel = none) := by
  constructor
  · intro kv rest fuel hf
    cases fuel with
    | zero => omega
    | succ n => rfl
  · intro fuel
    induction fuel with
    | zero => rfl
    | succ n ih => exact ih

/-- Witness for `get_winner_terminates_iff_nonempty`: one poll suffices on a
one-entry map, while a million iterations on the empty map still yield no
winner. -/
theorem get_winner_terminates_iff_nonempty_witness :
    get_winner_loop [(5, header0.claim)] 1 = some (5, header0.claim) ∧
    get_winner_loop [] 1000000 = none :=
  ⟨get_winner_terminates_iff_nonempty.1 (5, header0.claim) [] 1 (by decide),
   get_winner_terminates_iff_nonempty.2 1000000⟩

theorem btree_insert_ne_nil {β : Type} (kv : Nat × β) (m : List (Nat × β)) :
    btree_insert kv m ≠ [] := by
  cases m with
  | nil => simp [btree_insert]
  | cons hd tl =>
    obtain ⟨k, v⟩ := hd
    unfold btree_insert
    split_ifs <;> simp

theorem mem_btree_insert {β : Type} {x kv : Nat × β} {m : List (Nat × β)}
    (h : x ∈ btree_insert kv m) : x = kv ∨ x ∈ m := by
  induction m with
  | nil => simpa [btree_insert] using h
  | cons hd tl ih =>
    obtain ⟨k, v⟩ := hd
    unfold btree_insert at h
    split_ifs at h with h1 h2
    · exact List.mem_cons.mp h
    · rcases List.mem_cons.mp h with h3 | h3
      · exact Or.inl h3
      · exact Or.inr (List.mem_cons_of_mem _ h3)
    · rcases List.mem_cons.mp h with h3 | h3
      · exact Or.inr (h3 ▸ List.mem_cons_self _ _)
      · rcases ih h3 with h4 | h4
        · exact Or.inl h4
        · exact Or.inr (List.mem_cons_of_mem _ h4)

theorem keys_btree_insert {β : Type} (kv : Nat × β) (m : List (Nat × β)) (k2 : Nat) :
    k2 ∈ (btree_insert kv m).map Prod.fst ↔ k2 = kv.1 ∨ k2 ∈ m.map Prod.fst := by
  induction m with
  | nil => simp [btree_insert]
  | cons hd tl ih =>
    obtain ⟨k, v⟩ := hd
    unfold btree_insert
    split_ifs with h1 h2
    · simp
    · simp only [List.map_cons, List.mem_cons, h2]
      tauto
    · simp only [List.map_cons, List.mem_cons, ih]
      tauto

theorem sorted_btree_insert {β : Type} (kv : Nat × β) (m : List (Nat × β))
    (hm : m.Pairwise (fun a b => a.1 < b.1)) :
    (btree_insert kv m).Pairwise (fun a b => a.1 < b.1) := by
  induction m with
  | nil => simp [btree_insert]
  | cons hd tl ih =>
    obtain ⟨k, v⟩ := hd
    rcases List.pairwise_cons.mp hm with ⟨hhd, htl⟩
    unfold btree_insert
    split_ifs with h1 h2
    · refine List.pairwise_cons.mpr ⟨?_, hm⟩
      intro b hb
      rcases List.mem_cons.mp hb with h3 | h3
      · rw [h3]; exact h1
      · exact lt_trans h1 (hhd b h3)
    · refine List.pairwise_cons.mpr ⟨?_, htl⟩
      intro b hb
      rw [h2]
      exact hhd b hb
    · refine List.pairwise_cons.mpr ⟨?_, ih htl⟩
      intro b hb
      rcases mem_btree_insert hb with h3 | h3
      · rw [h3]; omega
      · exact hhd b h3

theorem btree_insert_perm {β : Type} (kv : Nat × β) (m : List (Nat × β))
    (hk : kv.1 ∉ m.map Prod.fst) :
    List.Perm (btree_insert kv m) (kv :: m) := by
  induction m with
  | nil => simp [btree_insert]
  | cons hd tl ih =>
    obtain ⟨k, v⟩ := hd
    simp only [List.map_cons, List.mem_cons] at hk
    push_neg at hk
    unfold btree_insert
    split_ifs with h1 h2
    · exact List.Perm.refl _
    · exact absurd h2 hk.1
    · exact (List.Perm.cons (k, v) (ih hk.2)).trans (List.Perm.swap kv (k, v) tl)

theorem foldl_insert_ne_nil {β : Type} (ps m : List (Nat × β))
    (h : m ≠ [] ∨ ps ≠ []) :
    ps.foldl (fun acc kv => btree_insert kv acc) m ≠ [] := by
  induction ps generalizing m with
  | nil => simpa using h.resolve_right (by simp)
  | cons x ps ih =>
    simp only [List.foldl_cons]
    exact ih (btree_insert x m) (Or.inl (btree_insert_ne_nil x m))

theorem foldl_insert_mem {β : Type} {x : Nat × β} (ps m : List (Nat × β))
    (h : x ∈ ps.foldl (fun acc kv => btree_insert kv acc) m) : x ∈ m ∨ x ∈ ps := by
  induction ps generalizing m with
  | nil => exact Or.inl (by simpa using h)
  | cons y ps ih =>
    simp only [List.foldl_cons] at h
    rcases ih (btree_insert y m) h with h2 | h2
    · rcases mem_btree_insert h2 with h3 | h3
      · exact Or.inr (h3 ▸ List.mem_cons_self _ _)
      · exact Or.inl h3
    · exact Or.inr (List.mem_cons_of_mem _ h2)

theorem foldl_insert_keys {β : Type} (ps m : List (Nat × β)) (k2 : Nat) :
    k2 ∈ (ps.foldl (fun acc kv => btree_insert kv acc) m).map Prod.fst ↔
      k2 ∈ m.map Prod.fst ∨ k2 ∈ ps.map Prod.fst := by
  induction ps generalizing m with
  | nil => simp
  | cons y ps ih =>
    simp only [List.foldl_cons, List.map_cons, List.mem_cons]
    rw [ih, keys_btree_insert]
    tauto

theorem foldl_insert_sorted {β : Type} (ps m : List (Nat × β))
    (hm : m.Pairwise (fun a b => a.1 < b.1)) :
    (ps.foldl (fun acc kv => btree_insert kv acc) m).Pairwise
      (fun a b => a.1 < b.1) := by
  induction ps generalizing m with
  | nil => simpa using hm
  | cons y ps ih =>
    simp only [List.foldl_cons]
    exact ih _ (sorted_btree_insert y m hm)

theorem foldl_insert_perm {β : Type} (ps m : List (Nat × β))
    (hnd : (ps.map Prod.fst).Nodup)
    (hdisj : ∀ k ∈ ps.map Prod.fst, k ∉ m.map Prod.fst) :
    List.Perm (ps.foldl (fun acc kv => btree_insert kv acc) m) (m ++ ps) := by
  induction ps generalizing m with
  | nil => simp
  | cons y ps ih =>
    simp only [List.map_cons, List.nodup_cons] at hnd
    simp only [List.foldl_cons]
    have hy : y.1 ∉ m.map Prod.fst := hdisj y.1 (by simp)
    have hdisj2 : ∀ k ∈ ps.map Prod.fst, k ∉ (btree_insert y m).map Prod.fst := by
      intro k hk
      rw [keys_btree_insert]
      push_neg
      exact ⟨fun he => hnd.1 (he ▸ hk), hdisj k (by simp [hk])⟩
    have h1 := ih (btree_insert y m) hnd.2 hdisj2
    have h2 : List.Perm (btree_insert y m ++ ps) ((y :: m) ++ ps) :=
      (btree_insert_perm y m hy).append_right ps
    have h3 : List.Perm ((y :: m) ++ ps) (m ++ y :: ps) := List.perm_middle.symm
    exact (h1.trans h2).trans h3

theorem sorted_head_le {β : Type} (x : Nat × β) (xs : List (Nat × β))
    (hs : (x :: xs).Pairwise (fun a b => a.1 < b.1)) (k : Nat)
    (hk : k ∈ (x :: xs).map Prod.fst) : x.1 ≤ k := by
  simp only [List.map_cons, List.mem_cons] at hk
  rcases hk with hk | hk
  · omega
  · rcases List.mem_map.mp hk with ⟨b, hb, hbk⟩
    have := (List.pairwise_cons.mp hs).1 b hb
    omega

/-- C4 (amended): for every claim map containing at least one Miner-eligible
claim, the miner election (`elect_miner` followed by `get_winner`) terminates
with a winner that is one of the Miner-eligible claims, paired with its
election result, and whose election result is the minimum of
`get_election_result(seed)` over all Miner-eligible claims.  Ties between
equal election results are resolved by the input iteration order (the
last-processed claim overwrites the `BTreeMap` entry), not by claim hash. -/
theorem elect_miner_winner_is_min (get_election_result : Claim → Nat → Nat)
    (claims : List (String × Claim)) (seed : Nat)
    (hm : ∃ p ∈ claims, p.2.eligibility = Eligibility.Miner) :
    ∃ w : Nat × Claim,
      (∀ fuel, 0 < fuel →
        get_winner_loop (elect_miner get_election_result claims seed) fuel = some w) ∧
      w.2.eligibility = Eligibility.Miner ∧
      (∃ p ∈ claims, w.2 = p.2 ∧ w.1 = get_election_result p.2 seed) ∧
      (∀ p ∈ claims, p.2.eligibility = Eligibility.Miner →
        w.1 ≤ get_election_result p.2 seed) := by
  rcases hm with ⟨p0, hp0, he0⟩
  have hmem0 : single_miner_results get_election_result p0.2 seed ∈
      miner_pairs get_election_result claims seed :=
    List.mem_map.mpr ⟨p0, List.mem_filter.mpr ⟨hp0, by simp [he0]⟩, rfl⟩
  have hne : miner_pairs get_election_result claims seed ≠ [] :=
    List.ne_nil_of_mem hmem0
  have hfold_ne : elect_miner get_election_result claims seed ≠ [] :=
    foldl_insert_ne_nil _ [] (Or.inr hne)
  obtain ⟨w, ws, hcons⟩ := List.exists_cons_of_ne_nil hfold_ne
  have hw : w ∈ miner_pairs get_election_result claims seed := by
    have hmem : w ∈ elect_miner get_election_result claims seed :=
      hcons ▸ List.mem_cons_self w ws
    rcases foldl_insert_mem _ [] hmem with h | h
    · simp at h
    · exact h
  rcases List.mem_map.mp hw with ⟨q, hq, hqe⟩
  have hqf := List.mem_filter.mp hq
  refine ⟨w, ?_, ?_, ?_, ?_⟩
  · intro fuel hf
    rw [hcons]
    cases fuel with
    | zero => omega
    | succ n => rfl
  · rw [← hqe]
    simpa [single_miner_results] using hqf.2
  · refine ⟨q, hqf.1, ?_, ?_⟩ <;> rw [← hqe] <;> simp [single_miner_results]
  · intro p hp hpe
    have hmemp : single_miner_results get_election_result p.2 seed ∈
        miner_pairs get_election_result claims seed :=
      List.mem_map.mpr ⟨p, List.mem_filter.mpr ⟨hp, by simp [hpe]⟩, rfl⟩
    have hkey : get_election_result p.2 seed ∈
        (miner_pairs get_election_result claims seed).map Prod.fst :=
      List.mem_map.mpr ⟨single_miner_results get_election_result p.2 seed, hmemp, rfl⟩
    have hkey2 : get_election_result p.2 seed ∈
        (elect_miner get_election_result claims seed).map Prod.fst :=
      (foldl_insert_keys _ [] _).mpr (Or.inr hkey)
    have hsorted : (elect_miner get_election_result claims seed).Pairwise
        (fun a b => a.1 < b.1) :=
      foldl_insert_sorted _ [] (by simp)
    rw [hcons] at hkey2 hsorted
    exact sorted_head_le w ws hsorted _ hkey2

/-- A Miner claim used in the tie counterexample. -/
def tieClaimA : Claim := { pubkey := "pkA", hash := "hashA", eligibility := .Miner }

/-- A second Miner claim, with a different hash, used in the tie
counterexample. -/
def tieClaimB : Claim := { pubkey := "pkB", hash := "hashB", eligibility := .Miner }

/-- Counterexample to C4 as stated: two Miner-eligible claims with equal
election results (the election-result function is constantly 5) and distinct
hashes.  The `BTreeMap` is keyed only by the election result, so the claim
processed last overwrites the entry: the two iteration orders of the same
claim map elect different winners.  The claim hash never enters the
selection, so ties are not broken deterministically by claim hash (a hash
tie-break would elect the same claim from both orders). -/
theorem elect_miner_tie_counterexample :
    get_winner_loop (elect_miner (fun _ _ => 5)
        [("n1", tieClaimA), ("n2", tieClaimB)] 3735928559) 1 = some (5, tieClaimB) ∧
    get_winner_loop (elect_miner (fun _ _ => 5)
        [("n2", tieClaimB), ("n1", tieClaimA)] 3735928559) 1 = some (5, tieClaimA) ∧
    tieClaimA.hash ≠ tieClaimB.hash := by
  refine ⟨by decide, by decide, by decide⟩

/-- C5 (amended): two claim maps holding the same set of claims (in any
iteration order) with the same seed elect the same miner, provided the
Miner-eligible claims have pairwise distinct election results — the proviso
the tie counterexample forces. -/
theorem elect_miner_perm_invariant (get_election_result : Claim → Nat → Nat)
    (seed : Nat) (l1 l2 : List (String × Claim))
    (hperm : List.Perm l1 l2)
    (hnd : ((miner_pairs get_election_result l1 seed).map Prod.fst).Nodup) :
    elect_miner get_election_result l1 seed = elect_miner get_election_result l2 seed ∧
    ∀ fuel, get_winner_loop (elect_miner get_election_result l1 seed) fuel =
      get_winner_loop (elect_miner get_election_result l2 seed) fuel := by
  have hp : List.Perm (miner_pairs get_election_result l1 seed)
      (miner_pairs get_election_result l2 seed) := by
    unfold miner_pairs
    exact (hperm.filter (fun p => p.2.eligibility == Eligibility.Miner)).map
      (fun p => single_miner_results get_election_result p.2 seed)
  have hnd2 : ((miner_pairs get_election_result l2 seed).map Prod.fst).Nodup :=
    ((hp.map Prod.fst).nodup_iff).mp hnd
  have h1 := foldl_insert_perm (miner_pairs get_election_result l1 seed) [] hnd (by simp)
  have h2 := foldl_insert_perm (miner_pairs get_election_result l2 seed) [] hnd2 (by simp)
  have hs1 := foldl_insert_sorted (miner_pairs get_election_result l1 seed) [] (by simp)
  have hs2 := foldl_insert_sorted (miner_pairs get_election_result l2 seed) [] (by simp)
  haveI : IsAntisymm (Nat × Claim) (fun a b => a.1 < b.1) :=
    ⟨fun a b hab hba => by omega⟩
  have heq : elect_miner get_election_result l1 seed =
      elect_miner get_election_result l2 seed :=
    List.eq_of_perm_of_sorted ((h1.trans hp).trans h2.symm) hs1 hs2
  exact ⟨heq, fun fuel => by rw [heq]⟩

/-- Four Miner claims whose election results under `quadResult` are the
distinct values 1, 2, 3, 4. -/
def quadClaim1 : Claim := { pubkey := "m", hash := "qh1", eligibility := .Miner }

/-- Second of the four distinct-result Miner claims. -/
def quadClaim2 : Claim := { pubkey := "mm", hash := "qh2", eligibility := .Miner }

/-- Third of the four distinct-result Miner claims. -/
def quadClaim3 : Claim := { pubkey := "mmm", hash := "qh3", eligibility := .Miner }

/-- Fourth of the four distinct-result Miner claims. -/
def quadClaim4 : Claim := { pubkey := "mmmm", hash := "qh4", eligibility := .Miner }

/-- An election-result stand-in giving each quad claim a distinct result. -/
def quadResult : Claim → Nat → Nat := fun c _ => c.pubkey.length

/-- The four quad claims as a claim map in one iteration order. -/
def quadList : List (String × Claim) :=
  [("a", quadClaim1), ("b", quadClaim2), ("c", quadClaim3), ("d", quadClaim4)]

/-- Witness for `elect_miner_perm_invariant`: with 4 Miner claims of distinct
election results and the fixed seed 0xDEADBEEF, reversing the input claim
order changes neither the election map nor the winner. -/
theorem elect_miner_perm_invariant_witness :
    List.Perm quadList quadList.reverse ∧
    ((miner_pairs quadResult quadList 3735928559).map Prod.fst).Nodup ∧
    elect_miner quadResult quadList 3735928559 =
      elect_miner quadResult quadList.reverse 3735928559 ∧
    get_winner_loop (elect_miner quadResult quadList 3735928559) 1 =
      get_winner_loop (elect_miner quadResult quadList.reverse 3735928559) 1 :=
  ⟨(List.reverse_perm quadList).symm, by decide,
   (elect_miner_perm_invariant quadResult 3735928559 quadList quadList.reverse
     (List.reverse_perm quadList).symm (by decide)).1,
   (elect_miner_perm_invariant quadResult 3735928559 quadList quadList.reverse
     (List.reverse_perm quadList).symm (by decide)).2 1⟩

/-- The scheduler's view of a mempool record: the `Job::Farm` payload carries
`(TransactionDigest, TxnRecord)` pairs and reads only the record's `txn`
field (src/crates/node/src/services/scheduler.rs, line 127). -/
structure SchedTxnRecord where
  txn : Txn
deriving DecidableEq, Repr

/-- A farmer's vote on a validated txn (events crate, not among the sources;
fields as constructed in scheduler.rs, lines 150-159).  Byte vectors are
lists of numbers; `farmer_node_id` is the `u16` node id. -/
structure Vote where
  farmer_id : List Nat
  farmer_node_id : Nat
  signature : List Nat
  txn : Txn
  quorum_public_key : List Nat
  quorum_threshold : Nat
  execution_result : Option String
deriving DecidableEq, Repr

/-- The external threshold-signature provider (signer crate, not among the
sources): fallible partial-signature generation over serialized txn bytes and
fallible quorum-signature aggregation over the share map. -/
structure SignatureProvider where
  generate_partial_signature : List Nat → Option (List Nat)
  generate_quorum_signature : List (Nat × List Nat) → Option (List Nat)

/-- `JobResult` (src/crates/node/src/services/scheduler.rs, lines 81-92). -/
inductive JobResult where
  | Votes : List (Option Vote) → Nat → JobResult
  | CertifiedTxn : List Vote → List Nat → String → String → List Nat → Txn → JobResult
deriving DecidableEq, Repr

/-- The per-txn closure of the `map_with` call in the `Job::Farm` arm
(src/crates/node/src/services/scheduler.rs, lines 141-164): serializes the
validated txn, generates a partial signature, and builds the vote — whose
`quorum_threshold` is the literal 2 — when both succeed; either failure
leaves a hole (`none`) at the txn's position. -/
def farm_vote (serialize : Txn → Option (List Nat))
    (sig_provider : SignatureProvider) (receiver_farmer_id : List Nat)
    (farmer_node_id : Nat) (quorum_public_key : List Nat) (t : Txn × Nat) :
    Option Vote :=
  let txn := t.1
  match serialize txn with
  | some txn_bytes =>
    match sig_provider.generate_partial_signature txn_bytes with
    | some signature =>
      some { farmer_id := receiver_farmer_id
             farmer_node_id := farmer_node_id
             signature := signature
             txn := txn
             quorum_public_key := quorum_public_key
             quorum_threshold := 2
             execution_result := none }
    | none => none
  | none => none

/-- The `Job::Farm` arm of `JobSchedulerController::execute_sync_jobs`
(src/crates/node/src/services/scheduler.rs, lines 119-174), as the list of
`JobResult`s sent on the sync output channel by one job.  `validate` stands
for the external `ValidatorCoreManager::validate` (returning the validated
txns, each paired with its fees) and `serialize` for `bincode::serialize`;
the rayon pool's `run_sync_job(...).join()` is modelled as running the
closure to completion.  The votes are `farm_vote` of each validated txn, and
the result pairs them with the supplied farmer quorum threshold. -/
def execute_farm_job (validate : List Txn → List (Txn × Nat))
    (serialize : Txn → Option (List Nat))
    (txns : List (String × SchedTxnRecord)) (receiver_farmer_id : List Nat)
    (farmer_node_id : Nat) (quorum_public_key : List Nat)
    (sig_provider : SignatureProvider) (farmer_quorum_threshold : Nat) :
    List JobResult :=
  let transactions := txns.map (fun x => x.2.txn)
  let validated_txns := validate transactions
  let votes := validated_txns.map
    (farm_vote serialize sig_provider receiver_farmer_id farmer_node_id
      quorum_public_key)
  [JobResult.Votes votes farmer_quorum_threshold]

/-- The `Job::CertifyTxn` arm of `JobSchedulerController::execute_sync_jobs`
(src/crates/node/src/services/scheduler.rs, lines 175-211), as the list of
`JobResult`s sent on the sync output channel by one job: the signature shares
are collected into a `BTreeMap` keyed by `farmer_node_id`, the txn is
re-validated against the state snapshot, and only a validated txn with a
successful quorum-signature aggregation emits a `CertifiedTxn`; both failure
paths only log. -/
def execute_certify_job (validate : List Txn → List (Txn × Nat))
    (sig_provider : SignatureProvider) (votes : List Vote) (txn_id : String)
    (farmer_quorum_key : String) (farmer_id : List Nat) (txn : Txn) :
    List JobResult :=
  let sig_shares := votes.foldl
    (fun m v => btree_insert (v.farmer_node_id, v.signature) m) []
  let validated_txns := validate [txn]
  let validated := validated_txns.any (fun x => x.1.txn_id == txn.txn_id)
  if validated then
    match sig_provider.generate_quorum_signature sig_shares with
    | some threshold_signature =>
      [JobResult.CertifiedTxn votes threshold_signature txn_id farmer_quorum_key
        farmer_id txn]
    | none => []
  else
    []

/-- C7: a `CertifyTxn` job whose re-validation of the txn against the state
snapshot does not validate it emits no `JobResult` on the sync output
channel: the job's output list is empty, so any channel state is unchanged by
the job. -/
theorem certify_txn_no_output_on_failed_validation
    (validate : List Txn → List (Txn × Nat)) (sig_provider : SignatureProvider)
    (votes : List Vote) (txn_id : String) (farmer_quorum_key : String)
    (farmer_id : List Nat) (txn : Txn)
    (hfail : (validate [txn]).any (fun x => x.1.txn_id == txn.txn_id) = false) :
    execute_certify_job validate sig_provider votes txn_id farmer_quorum_key
      farmer_id txn = [] ∧
    ∀ channel : List JobResult,
      channel ++ execute_certify_job validate sig_provider votes txn_id
        farmer_quorum_key farmer_id txn = channel := by
  have h : execute_certify_job validate sig_provider votes txn_id farmer_quorum_key
      farmer_id txn = [] := by
    unfold execute_certify_job
    simp [hfail]
  exact ⟨h, fun channel => by rw [h, List.append_nil]⟩

/-- Witness for `certify_txn_no_output_on_failed_validation`: a validator
that validates nothing fails the re-validation, and the job sends nothing. -/
theorem certify_txn_no_output_witness :
    ((fun _ => ([] : List (Txn × Nat))) [Txn.mk "t9" []]).any
        (fun x => x.1.txn_id == (Txn.mk "t9" []).txn_id) = false ∧
    execute_certify_job (fun _ => []) (SignatureProvider.mk (fun _ => some [1])
        (fun _ => some [2])) [] "t9" "qk" [3] (Txn.mk "t9" []) = [] :=
  ⟨rfl,
   (certify_txn_no_output_on_failed_validation (fun _ => [])
     (SignatureProvider.mk (fun _ => some [1]) (fun _ => some [2])) [] "t9" "qk" [3]
     (Txn.mk "t9" []) rfl).1⟩

/-- C8 (amended): a `Farm` job emits exactly one `Votes` result pairing the
vote list with the `farmer_quorum_threshold` supplied with the job.  The list
has one entry per validated txn; at each position the entry is absent
(`none`) exactly when the txn's serialization or partial-signature generation
fails, and every present vote carries the job's farmer id, farmer node id and
quorum public key, the validated txn, its generated partial signature, no
execution result, and the hardcoded vote-level `quorum_threshold = 2` — not
the supplied farmer quorum threshold, which appears only at the result level
(see the counterexample). -/
theorem farm_job_votes_shape (validate : List Txn → List (Txn × Nat))
    (serialize : Txn → Option (List Nat)) (txns : List (String × SchedTxnRecord))
    (receiver_farmer_id : List Nat) (farmer_node_id : Nat)
    (quorum_public_key : List Nat) (sig_provider : SignatureProvider)
    (farmer_quorum_threshold : Nat) :
    ∃ votes : List (Option Vote),
      execute_farm_job validate serialize txns receiver_farmer_id farmer_node_id
          quorum_public_key sig_provider farmer_quorum_threshold =
        [JobResult.Votes votes farmer_quorum_threshold] ∧
      List.Forall₂ (fun (t : Txn × Nat) (v : Option Vote) =>
          (v = none ↔ serialize t.1 = none ∨
            ∃ bs, serialize t.1 = some bs ∧
              sig_provider.generate_partial_signature bs = none) ∧
          ∀ w, v = some w →
            w.farmer_id = receiver_farmer_id ∧
            w.farmer_node_id = farmer_node_id ∧
            w.txn = t.1 ∧
            w.quorum_public_key = quorum_public_key ∧
            w.quorum_threshold = 2 ∧
            w.execution_result = none ∧
            ∃ bs, serialize t.1 = some bs ∧
              sig_provider.generate_partial_signature bs = some w.signature)
        (validate (txns.map (fun x => x.2.txn)))
        votes := by
  refine ⟨(validate (txns.map (fun x => x.2.txn))).map
    (farm_vote serialize sig_provider receiver_farmer_id farmer_node_id
      quorum_public_key), ?_, ?_⟩
  · rfl
  rw [List.forall₂_map_right_iff, List.forall₂_same]
  intro t ht
  cases hs : serialize t.1 with
  | none =>
    constructor
    · simp [farm_vote, hs]
    · intro w hw
      simp [farm_vote, hs] at hw
  | some bs =>
    cases hg : sig_provider.generate_partial_signature bs with
    | none =>
      constructor
      · simp [farm_vote, hs, hg]
      · intro w hw
        simp [farm_vote, hs, hg] at hw
    | some s =>
      constructor
      · simp only [farm_vote, hs, hg]
        constructor
        · intro hc; exact Option.noConfusion hc
        · rintro (hc | ⟨bs2, hbs2, hgen2⟩)
          · exact Option.noConfusion hc
          · injection hbs2 with hbs3
            subst hbs3
            rw [hg] at hgen2
            exact Option.noConfusion hgen2
      · intro w hw
        simp only [farm_vote, hs, hg] at hw
        injection hw with hw2
        subst hw2
        refine ⟨rfl, rfl, rfl, rfl, rfl, rfl, bs, rfl, hg⟩

/-- A txn used in the farm-job counterexample. -/
def farmTxn : Txn := { txn_id := "ct", validators := [] }

/-- The vote the farm-job counterexample produces: note the hardcoded
`quorum_threshold = 2`. -/
def farmVote : Vote :=
  { farmer_id := [7]
    farmer_node_id := 1
    signature := [2]
    txn := farmTxn
    quorum_public_key := [9]
    quorum_threshold := 2
    execution_result := none }

/-- Counterexample to C8 as stated: a `Farm` job supplied with
`farmer_quorum_threshold = 5` whose single txn validates, serializes and
signs, produces a present vote whose `quorum_threshold` field is 2, not the
supplied 5. -/
theorem farm_job_threshold_counterexample :
    execute_farm_job (fun ts => ts.map (fun t => (t, 0))) (fun _ => some [1])
        [("d1", SchedTxnRecord.mk farmTxn)] [7] 1 [9]
        (SignatureProvider.mk (fun _ => some [2]) (fun _ => some [3])) 5 =
      [JobResult.Votes [some farmVote] 5] ∧
    farmVote.quorum_threshold = 2 ∧ farmVote.quorum_threshold ≠ 5 :=
  ⟨by decide, rfl, by decide⟩

/-- Witness for `elect_miner_winner_is_min`: the four distinct-result Miner
claims under seed 0xDEADBEEF admit a winner with the minimal election
result. -/
theorem elect_miner_winner_is_min_witness :
    (∃ p ∈ quadList, p.2.eligibility = Eligibility.Miner) ∧
    (∃ w : Nat × Claim,
      (∀ fuel, 0 < fuel →
        get_winner_loop (elect_miner quadResult quadList 3735928559) fuel = some w) ∧
      w.2.eligibility = Eligibility.Miner ∧
      (∃ p ∈ quadList, w.2 = p.2 ∧ w.1 = quadResult p.2 3735928559) ∧
      (∀ p ∈ quadList, p.2.eligibility = Eligibility.Miner →
        w.1 ≤ quadResult p.2 3735928559)) :=
  ⟨by decide, elect_miner_winner_is_min quadResult quadList 3735928559 (by decide)⟩

/-- Counterexample to C5 as stated: the two iteration orders of the same
two-claim map (the tie claims, whose election results are both 5 under the
constant function) are permutations of each other, yet the miner election
returns different winners, so permuting the input claim order can change the
winner when election results tie. -/
theorem elect_miner_perm_changes_winner :
    List.Perm [("n1", tieClaimA), ("n2", tieClaimB)]
      [("n2", tieClaimB), ("n1", tieClaimA)] ∧
    get_winner_loop (elect_miner (fun _ _ => 5)
        [("n1", tieClaimA), ("n2", tieClaimB)] 3735928559) 1 ≠
      get_winner_loop (elect_miner (fun _ _ => 5)
        [("n2", tieClaimB), ("n1", tieClaimA)] 3735928559) 1 :=
  ⟨by decide, by decide⟩

end Versatus
